import Mathlib

/-
Verification of the accessibility engine in `src/assess.py` (class
`AssessPipeline` and its helpers).

Shallow embedding conventions:
  * Python floats are modelled as rationals (ℚ); the float values arising in
    the claims (e.g. 100/1000/30*3600 = 12.0) are exact in both models.
  * pandas NaN (the "undefined" travel-time marker) is modelled as `none` of
    an `Option ℚ`; defined values are `some`.
  * Fallible code (an unhandled Python exception) is modelled with `Except`.
  * The `networkx.multi_source_dijkstra_path_length` call is an external
    library dependency; it is modelled from its documented contract (the
    mapping of each node to its least accumulated edge weight from any
    source node, restricted to values not exceeding the cutoff), realised
    here by an executable Bellman-Ford style relaxation whose agreement with
    the walk-cost semantics is proved below.
-/

namespace Assess

/- ------------------------------------------------------------------ -/
/- Road network weights: `assign_speeds_and_travel_time`               -/
/- ------------------------------------------------------------------ -/

/-- An OSM `highway` tag value: a plain string, a (nonempty) list of strings
as produced by OSMnx for merged ways, or missing (NaN).  OSMnx only produces
nonempty lists, which the model reflects by carrying a head element. -/
inductive Highway where
  | tag (s : String)
  | tags (hd : String) (tl : List String)
  | missing
deriving DecidableEq, Repr

/-- Source `_highway_str` (assess.py lines 84-88): if the value is a
(nonempty) list, take its first element, otherwise keep it unchanged. -/
def _highway_str : Highway → Highway
  | .tags hd _ => .tag hd
  | h => h

/-- Speed resolution of the source (lines 90-91): normalise the tag with
`_highway_str`, look the string up in the speed table
(`.map(default_speeds)`), and fall back to 30 for unknown or missing keys
(`.fillna(30)`). -/
def speedOf (table : List (String × ℚ)) (h : Highway) : ℚ :=
  match _highway_str h with
  | .tag s => (table.lookup s).getD 30
  | _ => 30

/-- Speed resolution as claim C2 words it: look up the road-class tag in the
speed table, using the first element when the tag is a list, and the default
fallback speed when the tag is unknown or missing. -/
def claimSpeed (table : List (String × ℚ)) (fallback : ℚ) : Highway → ℚ
  | .tag s => (table.lookup s).getD fallback
  | .tags hd _ => (table.lookup hd).getD fallback
  | .missing => fallback

/-- A row of the edges GeoDataFrame before weight assignment: endpoints and
parallel-edge key (`u`, `v`, `key` columns or index), `length` in metres and
the `highway` tag. -/
structure EdgeRow where
  u : Nat
  v : Nat
  key : Nat
  length : ℚ
  highway : Highway
deriving DecidableEq, Repr

/-- A row after `assign_speeds_and_travel_time`: the added `highway_str`,
`speed_kph` and `travel_time_sec` columns. -/
structure EdgeRowW extends EdgeRow where
  highway_str : Highway
  speed_kph : ℚ
  travel_time_sec : ℚ
deriving DecidableEq, Repr

/-- The hard-coded `default_speeds` table of the source (lines 71-80). -/
def default_speeds : List (String × ℚ) :=
  [("motorway", 80), ("motorway_link", 60),
   ("trunk", 60), ("trunk_link", 50),
   ("primary", 50), ("primary_link", 40),
   ("secondary", 40), ("secondary_link", 35),
   ("tertiary", 35), ("tertiary_link", 30),
   ("residential", 25), ("living_street", 20),
   ("unclassified", 20), ("service", 15)]

/-- Source `assign_speeds_and_travel_time`, column part (lines 82-94): each
edge row gets `highway_str`, `speed_kph` and
`travel_time_sec = (length / 1000) / speed_kph * 3600`. -/
def assign_speeds_and_travel_time (table : List (String × ℚ))
    (edges : List EdgeRow) : List EdgeRowW :=
  edges.map (fun e =>
    { toEdgeRow := e,
      highway_str := _highway_str e.highway,
      speed_kph := speedOf table e.highway,
      travel_time_sec := e.length / 1000 / speedOf table e.highway * 3600 })

/-- A graph edge with its optional `travel_time_sec` attribute (the
attribute is absent before the write-back loop of the source). -/
structure GEdge where
  u : Nat
  v : Nat
  key : Nat
  travel_time_sec : Option ℚ
deriving DecidableEq, Repr

/-- Source lines 96-117: the `(u, v, key) -> travel_time_sec` dictionary
built from the edge rows.  (Python dict semantics collapse duplicate keys to
the last value; the write-back loop below processes the entries in order,
which yields the same final attributes.) -/
def edge_time_dict (rows : List EdgeRowW) : List ((Nat × Nat × Nat) × ℚ) :=
  rows.map (fun r => ((r.u, r.v, r.key), r.travel_time_sec))

/-- The fallback of source lines 126-130: assign the travel time to the
first parallel edge between `u` and `v` (`for key in self.G[u][v]: ...;
break`). -/
def setFirstUV : List GEdge → Nat → Nat → ℚ → List GEdge
  | [], _, _, _ => []
  | g :: gs, u, v, tt =>
    if g.u = u ∧ g.v = v then { g with travel_time_sec := some tt } :: gs
    else g :: setFirstUV gs u v tt

/-- Source lines 121-130: write one dictionary entry into the graph.  If the
exact `(u, v, key)` edge exists its attribute is set; otherwise, if some
parallel `(u, v)` edge exists, the first one gets the attribute; otherwise
nothing happens (the `try/except` guard never fires in this model). -/
def setEdgeTime (G : List GEdge) (u v k : Nat) (tt : ℚ) : List GEdge :=
  if G.any (fun g => g.u = u ∧ g.v = v ∧ g.key = k) then
    G.map (fun g =>
      if g.u = u ∧ g.v = v ∧ g.key = k then { g with travel_time_sec := some tt } else g)
  else if G.any (fun g => g.u = u ∧ g.v = v) then setFirstUV G u v tt
  else G

/-- Source lines 119-130: the whole write-back loop over the dictionary. -/
def assignToGraph (G : List GEdge) (d : List ((Nat × Nat × Nat) × ℚ)) : List GEdge :=
  d.foldl (fun G e => setEdgeTime G e.1.1 e.1.2.1 e.1.2.2 e.2) G

/- ------------------------------------------------------------------ -/
/- Snapping: `_build_node_kdtree` / `_snap_to_nearest_nodes`           -/
/- ------------------------------------------------------------------ -/

/-- A graph node with its projected (metric CRS) coordinates. -/
structure NodePt where
  id : Nat
  x : ℚ
  y : ℚ
deriving DecidableEq, Repr

/-- Squared Euclidean distance; it has the same minimisers as the Euclidean
distance used by the KD-tree query. -/
def sqDist (p q : ℚ × ℚ) : ℚ :=
  (p.1 - q.1) * (p.1 - q.1) + (p.2 - q.2) * (p.2 - q.2)

/-- Nearest node of a nonempty node list (head plus tail), ties broken in
favour of the earliest node, matching the deterministic implementation-
defined tie-break of the KD-tree query. -/
def nearest1 (n0 : NodePt) (rest : List NodePt) (q : ℚ × ℚ) : Nat :=
  (rest.foldl
    (fun best m => if sqDist (m.x, m.y) q < sqDist (best.x, best.y) q then m else best)
    n0).id

/-- Nearest node over an arbitrary node list (`none` when there are no
nodes). -/
def nearestNode (ns : List NodePt) (q : ℚ × ℚ) : Option Nat :=
  match ns with
  | [] => none
  | n0 :: rest => some (nearest1 n0 rest q)

/-- The failure mode of `_snap_to_nearest_nodes`: with a nonempty query and
an empty node index, `self._node_index_list[i]` raises an unhandled
IndexError (the KD-tree query against an empty tree yields the
missing-neighbour index).  No `EmptyInputError` class exists anywhere in the
source. -/
inductive SnapError where
  | emptyNodeIndex
deriving DecidableEq, Repr

/-- Source `_snap_to_nearest_nodes` (lines 45-60): an empty query returns
`[]` (the `if pts_coords.size == 0` guard); otherwise each point snaps to
its nearest node; a nonempty query against an empty node set fails. -/
def snap_to_nearest_nodes (ns : List NodePt) (pts : List (ℚ × ℚ)) :
    Except SnapError (List Nat) :=
  if pts.isEmpty then .ok []
  else
    match ns with
    | [] => .error .emptyNodeIndex
    | n0 :: rest => .ok (pts.map (fun p => nearest1 n0 rest p))

/- ------------------------------------------------------------------ -/
/- Population rows, `attach_travel_times` and `summarize_access`       -/
/- ------------------------------------------------------------------ -/

/-- A population point row: coordinates, the optional `pop` weight column
value, and the `travel_time_min` column (`none` models NaN/undefined). -/
structure PopRow where
  x : ℚ
  y : ℚ
  pop : ℚ
  travel_time_min : Option ℚ
deriving DecidableEq, Repr

/-- Source `attach_travel_times` (lines 163-181): snap all population
points, look each snapped node up in `lengths` with NaN as the default, and
attach minutes (`sec / 60.0`) where the seconds value is defined (all
values produced by the shortest-path search are finite, so `np.isfinite`
is equivalent to presence in the mapping). -/
def attach_travel_times (ns : List NodePt) (lengths : List (Nat × ℚ))
    (pts : List PopRow) : Except SnapError (List PopRow) :=
  match snap_to_nearest_nodes ns (pts.map (fun p => (p.x, p.y))) with
  | .error e => .error e
  | .ok pop_nodes =>
    .ok ((pts.zip pop_nodes).map (fun q =>
      { q.1 with travel_time_min := (List.lookup q.2 lengths).map (fun s => s / 60) }))

/-- The pandas comparison `travel_time_min <= t`: false on NaN. -/
def ttLe (r : PopRow) (t : ℚ) : Bool :=
  match r.travel_time_min with
  | some m => decide (m ≤ t)
  | none => false

/-- `self.pop_points['pop'].sum()`. -/
def totalPop (rows : List PopRow) : ℚ := (rows.map (fun r => r.pop)).sum

/-- `self.pop_points.loc[mask, 'pop'].sum()` for the threshold mask. -/
def withinPop (rows : List PopRow) (t : ℚ) : ℚ :=
  ((rows.filter (fun r => ttLe r t)).map (fun r => r.pop)).sum

/-- `(self.pop_points['travel_time_min'] <= t).sum()` as a float. -/
def withinCount (rows : List PopRow) (t : ℚ) : ℚ :=
  ((rows.filter (fun r => ttLe r t)).length : ℚ)

/-- Source `summarize_access` (lines 186-203), value at one threshold: with
a `pop` column the weighted branch, otherwise the count branch, each
guarded by `if total > 0 else 0.0`. -/
def summarize_pct (hasPopCol : Bool) (rows : List PopRow) (t : ℚ) : ℚ :=
  if hasPopCol then
    if totalPop rows > 0 then withinPop rows t / totalPop rows * 100 else 0
  else
    if (rows.length : ℚ) > 0 then withinCount rows t / (rows.length : ℚ) * 100 else 0

/-- Source `summarize_access`: the threshold -> percentage mapping. -/
def summarize_access (hasPopCol : Bool) (rows : List PopRow)
    (thresholds : List ℚ) : List (ℚ × ℚ) :=
  thresholds.map (fun t => (t, summarize_pct hasPopCol rows t))

/-- The percentage as claim C4 words it: 100 times the ratio of the weight
(or count) of points with defined travel time within the threshold over the
total weight (or count) of all points, with 0 when the total is zero. -/
def claimPct (hasPopCol : Bool) (rows : List PopRow) (t : ℚ) : ℚ :=
  let denom := if hasPopCol then totalPop rows else (rows.length : ℚ)
  let num := if hasPopCol then withinPop rows t else withinCount rows t
  if denom = 0 then 0 else 100 * (num / denom)

/- ------------------------------------------------------------------ -/
/- Multi-source shortest paths: `compute_accessibility`                -/
/- ------------------------------------------------------------------ -/

/-- A weighted directed edge of the road graph: its `travel_time_sec`
attribute is the traversal weight read by the shortest-path search.
Parallel edges simply occur several times in the edge list. -/
structure WEdge where
  u : Nat
  v : Nat
  w : ℚ
deriving DecidableEq, Repr

/-- A weighted graph: the node GeoDataFrame (ids with projected
coordinates) and the weighted edges. -/
structure Graph where
  nodes : List NodePt
  edges : List WEdge
deriving DecidableEq, Repr

/-- Least element of a rational list, `none` when empty. -/
def minList : List ℚ → Option ℚ
  | [] => none
  | x :: xs => some (xs.foldl min x)

/-- Weights of the parallel edges from `u` to `v`. -/
def pweights (es : List WEdge) (u v : Nat) : List ℚ :=
  es.filterMap (fun e => if e.u = u ∧ e.v = v then some e.w else none)

/-- Effective traversal weight from `u` to `v`: the minimum over parallel
edges, exactly the multigraph weight function networkx uses for its
Dijkstra search. -/
def ewt (es : List WEdge) (u v : Nat) : Option ℚ :=
  minList (pweights es u v)

/-- All node ids a search from `S` can mention: the sources and the edge
endpoints, deduplicated. -/
def verts (es : List WEdge) (S : List Nat) : List Nat :=
  (S ++ es.map (fun e => e.u) ++ es.map (fun e => e.v)).dedup

/-- Accumulated cost of a walk written target first (the head is the
target, the last element the start): each step from the second element to
the head costs the effective weight. -/
def walkCost (es : List WEdge) : List Nat → Option ℚ
  | [] => none
  | [_] => some 0
  | n :: u :: rest =>
    match ewt es u n, walkCost es (u :: rest) with
    | some w, some c => some (w + c)
    | _, _ => none

/-- `p` is a walk from some source in `S` to `n` of accumulated cost `c`
(the walk is written target first). -/
def IsWalkTo (es : List WEdge) (S : List Nat) (p : List Nat) (n : Nat) (c : ℚ) : Prop :=
  p.head? = some n ∧ (∃ s ∈ S, p.getLast? = some s) ∧ walkCost es p = some c

/-- `n` is reachable from `S` by some walk of accumulated cost `c`. -/
def Reach (es : List WEdge) (S : List Nat) (n : Nat) (c : ℚ) : Prop :=
  ∃ p, IsWalkTo es S p n c

/-- `c` is the minimum accumulated travel time over all walks from `S` to
`n` (compare `IsShortestDistance`-style statements: attained and a lower
bound). -/
def IsMinReach (es : List WEdge) (S : List Nat) (n : Nat) (c : ℚ) : Prop :=
  Reach es S n c ∧ ∀ d, Reach es S n d → c ≤ d

/-- Distance-table update: lower the entry of `n` to at most `c`. -/
def updMin (t : Nat → Option ℚ) (n : Nat) (c : ℚ) : Nat → Option ℚ :=
  fun m =>
    if m = n then
      match t n with
      | none => some c
      | some d => some (min c d)
    else t m

/-- One edge-relaxation step over the distance table. -/
def stepFn (es : List WEdge) (t : Nat → Option ℚ) (e : WEdge) : Nat → Option ℚ :=
  match t e.u, ewt es e.u e.v with
  | some du, some w => updMin t e.v (du + w)
  | _, _ => t

/-- One full relaxation round over all edges. -/
def relaxRound (es : List WEdge) (t : Nat → Option ℚ) : Nat → Option ℚ :=
  es.foldl (stepFn es) t

/-- The initial table: every source at distance 0. -/
def initTable (S : List Nat) : Nat → Option ℚ :=
  fun n => if n ∈ S then some 0 else none

/-- `k` relaxation rounds. -/
def bfIter (es : List WEdge) : Nat → (Nat → Option ℚ) → Nat → Option ℚ
  | 0, t => t
  | k + 1, t => relaxRound es (bfIter es k t)

/-- `t1` improves `t2`: wherever `t2` has a value, `t1` has one at most as
large. -/
def tableLE (t1 t2 : Nat → Option ℚ) : Prop :=
  ∀ n c, t2 n = some c → ∃ d, t1 n = some d ∧ d ≤ c

/-- The converged distance table: as many rounds as there are relevant
nodes, enough to cover every duplicate-free walk. -/
def shortestTable (es : List WEdge) (S : List Nat) : Nat → Option ℚ :=
  bfIter es (verts es S).length (initTable S)

/-- Model of `networkx.multi_source_dijkstra_path_length` from its
documented contract: the mapping of each node to its least accumulated
edge weight from any source, keeping only values not exceeding the
cutoff. -/
def multi_source_dijkstra_path_length (es : List WEdge) (S : List Nat)
    (cutoff : ℚ) : List (Nat × ℚ) :=
  (verts es S).filterMap (fun m =>
    match shortestTable es S m with
    | some d => if d ≤ cutoff then some (m, d) else none
    | none => none)

/-- The snapped, deduplicated facility node set of source line 149
(`list(set(self._snap_to_nearest_nodes(self.facilities)))`), as a plain
value (empty when snapping fails). -/
def facility_nodes (g : Graph) (facilities : List (ℚ × ℚ)) : List Nat :=
  match snap_to_nearest_nodes g.nodes facilities with
  | .ok ids => ids.dedup
  | .error _ => []

/-- Source `compute_accessibility` (lines 141-158): snap the facilities,
deduplicate, return the empty mapping for an empty facility-node set, and
otherwise run the cutoff-bounded multi-source shortest-path search with
`travel_time_sec` as the edge weight. -/
def compute_accessibility (g : Graph) (facilities : List (ℚ × ℚ))
    (cutoff : ℚ) : Except SnapError (List (Nat × ℚ)) :=
  match snap_to_nearest_nodes g.nodes facilities with
  | .error e => .error e
  | .ok ids =>
    let facilityNodes := ids.dedup
    if facilityNodes.isEmpty then .ok []
    else .ok (multi_source_dijkstra_path_length g.edges facilityNodes cutoff)

/- ------------------------------------------------------------------ -/
/- Object store model for the frame effect of `attach_travel_times`    -/
/- ------------------------------------------------------------------ -/

/-- The mutable-object view of the pipeline: a store of GeoDataFrame
objects (indexed by allocation order) and the index `self.pop_points`
currently refers to.  The caller's original population GeoDataFrame is the
object the reference pointed at before the call. -/
structure PipelineState where
  store : List (List PopRow)
  pop_points_ref : Nat
deriving DecidableEq, Repr

/-- Source lines 178-180 at the object level: compute the attached rows
from the referenced object, allocate a fresh copy holding them
(`self.pop_points.copy()` plus the column assignment) and rebind
`self.pop_points` to the fresh object. -/
def attach_travel_times_step (ns : List NodePt) (lengths : List (Nat × ℚ))
    (st : PipelineState) : Except SnapError PipelineState :=
  match attach_travel_times ns lengths ((st.store.get? st.pop_points_ref).getD []) with
  | .error e => .error e
  | .ok rows => .ok ⟨st.store ++ [rows], st.store.length⟩

/- ------------------------------------------------------------------ -/
/- The concrete inputs of the spec's worked examples                   -/
/- ------------------------------------------------------------------ -/

/-- The 3-node line graph A-B-C of spec Example 1 (A = 0, B = 1, C = 2),
100 m apart along the x-axis. -/
def exampleNodes : List NodePt :=
  [⟨0, 0, 0⟩, ⟨1, 100, 0⟩, ⟨2, 200, 0⟩]

/-- The two 100 m two-way segments A-B and B-C with an unknown road class,
so that the fallback speed 30 km/h applies, as in the spec example. -/
def exampleEdgesRaw : List EdgeRow :=
  [⟨0, 1, 0, 100, .tag "road"⟩, ⟨1, 0, 0, 100, .tag "road"⟩,
   ⟨1, 2, 0, 100, .tag "road"⟩, ⟨2, 1, 0, 100, .tag "road"⟩]

/-- The weighted example graph: the weights are the `travel_time_sec`
values the weight-assignment stage produces (12 s per segment). -/
def exampleGraph : Graph :=
  ⟨exampleNodes,
   (assign_speeds_and_travel_time default_speeds exampleEdgesRaw).map
     (fun r => ⟨r.u, r.v, r.travel_time_sec⟩)⟩

/-- One facility located exactly at node A. -/
def exampleFacility : List (ℚ × ℚ) := [(0, 0)]

/- ================================================================== -/
/- Theorems                                                            -/
/- ================================================================== -/

theorem speedOf_eq_claimSpeed (table : List (String × ℚ)) (h : Highway) :
    speedOf table h = claimSpeed table 30 h := by
  cases h <;> rfl

theorem lookup_mem {α β : Type} [BEq α] [LawfulBEq α] {l : List (α × β)} {a : α} {b : β}
    (h : List.lookup a l = some b) : (a, b) ∈ l := by
  induction l with
  | nil => simp [List.lookup] at h
  | cons p l ih =>
    obtain ⟨k, v⟩ := p
    rw [List.lookup_cons] at h
    cases hbeq : (a == k) with
    | true =>
      rw [hbeq] at h
      obtain rfl : a = k := eq_of_beq hbeq
      obtain rfl : v = b := by simpa using h
      exact List.mem_cons_self _ _
    | false =>
      rw [hbeq] at h
      exact List.mem_cons_of_mem _ (ih h)

theorem speedOf_pos (table : List (String × ℚ)) (hpos : ∀ p ∈ table, 0 < p.2)
    (h : Highway) : 0 < speedOf table h := by
  have key : ∀ s : String, 0 < (table.lookup s).getD 30 := by
    intro s
    cases hl : table.lookup s with
    | none => norm_num
    | some v => simpa using hpos (s, v) (lookup_mem hl)
  cases h with
  | tag s => simpa [speedOf, _highway_str] using key s
  | tags hd tl => simpa [speedOf, _highway_str] using key hd
  | missing => norm_num [speedOf, _highway_str]

/-- Claim C2: for every edge, `assign_speeds_and_travel_time` resolves the
speed from the road-class tag (first element when the tag is a list,
fallback 30 when unknown or missing) and sets
`travel_time_sec = (length_m/1000)/speed_kph * 3600`. -/
theorem claim_C2 : ∀ (table : List (String × ℚ)) (edges : List EdgeRow) (i : Nat),
    (assign_speeds_and_travel_time table edges)[i]? =
      (edges[i]?).map (fun e =>
        { toEdgeRow := e,
          highway_str := _highway_str e.highway,
          speed_kph := claimSpeed table 30 e.highway,
          travel_time_sec := e.length / 1000 / claimSpeed table 30 e.highway * 3600 }) := by
  intro table edges i
  simp [assign_speeds_and_travel_time, List.getElem?_map, speedOf_eq_claimSpeed]

theorem totalPop_nonneg (rows : List PopRow) (h : ∀ r ∈ rows, 0 ≤ r.pop) :
    0 ≤ totalPop rows := by
  apply List.sum_nonneg
  intro x hx
  obtain ⟨r, hr, rfl⟩ := List.mem_map.mp hx
  exact h r hr

/-- Claim C4 (amended): with nonnegative weights the returned percentage is
exactly the claim's formula (100 times the within-ratio, 0 on a zero
denominator); the empty population always yields 0 and no division error
can occur. -/
theorem claim_C4 :
    (∀ (b : Bool) (rows : List PopRow) (t : ℚ),
      (b = true → ∀ r ∈ rows, 0 ≤ r.pop) →
      summarize_pct b rows t = claimPct b rows t) ∧
    (∀ (b : Bool) (rows : List PopRow) (ts : List ℚ),
      summarize_access b rows ts = ts.map (fun t => (t, summarize_pct b rows t))) ∧
    (∀ (b : Bool) (t : ℚ), summarize_pct b [] t = 0) := by
  refine ⟨?_, fun b rows ts => rfl, ?_⟩
  · intro b rows t hpos
    cases b with
    | false =>
      have hnn : (0 : ℚ) ≤ (rows.length : ℚ) := Nat.cast_nonneg _
      simp only [summarize_pct, claimPct, Bool.false_eq_true, if_false]
      split_ifs with h1 h2 h2
      · exact absurd h2 (ne_of_gt h1)
      · ring
      · rfl
      · exact absurd (le_antisymm (not_lt.mp h1) hnn) h2
    | true =>
      have hnn : 0 ≤ totalPop rows := totalPop_nonneg rows (hpos rfl)
      simp only [summarize_pct, claimPct, if_true]
      split_ifs with h1 h2 h2
      · exact absurd h2 (ne_of_gt h1)
      · ring
      · rfl
      · exact absurd (le_antisymm (not_lt.mp h1) hnn) h2
  · intro b t
    cases b <;> simp [summarize_pct, totalPop, withinPop]

theorem claim_C4_witness :
    summarize_pct true [⟨0, 0, 5, some 5⟩, ⟨0, 0, 3, none⟩] 10 =
      claimPct true [⟨0, 0, 5, some 5⟩, ⟨0, 0, 3, none⟩] 10 := by
  exact claim_C4.1 true [⟨0, 0, 5, some 5⟩, ⟨0, 0, 3, none⟩] 10 (by norm_num)

/-- Claim C4 fails as universally stated: a (physically meaningless but
type-correct) negative weight makes the total nonpositive, and the code
returns 0 while the claim's ratio formula gives 100. -/
theorem claim_C4_cex :
    summarize_pct true [⟨0, 0, -1, some 1⟩] 10 = 0 ∧
    claimPct true [⟨0, 0, -1, some 1⟩] 10 = 100 := by
  constructor
  · norm_num [summarize_pct, totalPop, withinPop, ttLe]
  · norm_num [claimPct, totalPop, withinPop, ttLe]

theorem ttLe_mono (r : PopRow) (t1 t2 : ℚ) (h : t1 ≤ t2) (h1 : ttLe r t1 = true) :
    ttLe r t2 = true := by
  cases hm : r.travel_time_min with
  | none => simp [ttLe, hm] at h1
  | some m =>
    simp only [ttLe, hm, decide_eq_true_eq] at h1 ⊢
    exact le_trans h1 h

theorem withinPop_mono (rows : List PopRow) (t1 t2 : ℚ)
    (hpos : ∀ r ∈ rows, 0 ≤ r.pop) (h : t1 ≤ t2) :
    withinPop rows t1 ≤ withinPop rows t2 := by
  induction rows with
  | nil => simp [withinPop]
  | cons r rows ih =>
    have hr : 0 ≤ r.pop := hpos r (List.mem_cons_self r rows)
    have ih' := ih (fun x hx => hpos x (List.mem_cons_of_mem r hx))
    by_cases h1 : ttLe r t1 = true
    · have h2 := ttLe_mono r t1 t2 h h1
      simpa [withinPop, List.filter_cons, h1, h2] using ih'
    · by_cases h2 : ttLe r t2 = true
      · simp only [withinPop, List.filter_cons, h1, h2]
        simp only [Bool.false_eq_true, if_false, if_true, List.map_cons, List.sum_cons]
        calc ((rows.filter (fun r => ttLe r t1)).map (fun r => r.pop)).sum
            ≤ ((rows.filter (fun r => ttLe r t2)).map (fun r => r.pop)).sum := ih'
          _ ≤ r.pop + ((rows.filter (fun r => ttLe r t2)).map (fun r => r.pop)).sum := by
              linarith
      · simpa [withinPop, List.filter_cons, h1, h2] using ih'

theorem withinCount_mono (rows : List PopRow) (t1 t2 : ℚ) (h : t1 ≤ t2) :
    withinCount rows t1 ≤ withinCount rows t2 := by
  have hlen : (rows.filter (fun r => ttLe r t1)).length ≤
      (rows.filter (fun r => ttLe r t2)).length := by
    apply List.Sublist.length_le
    apply List.monotone_filter_right
    intro r h1
    exact ttLe_mono r t1 t2 h h1
  unfold withinCount
  exact_mod_cast hlen

/-- Claim C5 (amended): coverage is non-decreasing in the threshold
provided the population weights are nonnegative (the count branch needs no
such restriction). -/
theorem claim_C5 : ∀ (b : Bool) (rows : List PopRow) (t1 t2 : ℚ),
    (b = true → ∀ r ∈ rows, 0 ≤ r.pop) → t1 < t2 →
    summarize_pct b rows t1 ≤ summarize_pct b rows t2 := by
  intro b rows t1 t2 hpos hlt
  cases b with
  | false =>
    by_cases h : (rows.length : ℚ) > 0
    · simp only [summarize_pct, if_pos h]
      have := withinCount_mono rows t1 t2 (le_of_lt hlt)
      have hdiv : withinCount rows t1 / (rows.length : ℚ) ≤
          withinCount rows t2 / (rows.length : ℚ) := (div_le_div_iff_of_pos_right h).mpr this
      exact mul_le_mul_of_nonneg_right hdiv (by norm_num)
    · simp [summarize_pct, h]
  | true =>
    by_cases h : totalPop rows > 0
    · simp only [summarize_pct, if_pos h]
      have := withinPop_mono rows t1 t2 (hpos rfl) (le_of_lt hlt)
      have hdiv : withinPop rows t1 / totalPop rows ≤ withinPop rows t2 / totalPop rows :=
        (div_le_div_iff_of_pos_right h).mpr this
      exact mul_le_mul_of_nonneg_right hdiv (by norm_num)
    · simp [summarize_pct, h]

theorem claim_C5_witness :
    summarize_pct true [⟨0, 0, 1, some 5⟩, ⟨0, 0, 2, some 15⟩] 10 ≤
      summarize_pct true [⟨0, 0, 1, some 5⟩, ⟨0, 0, 2, some 15⟩] 20 := by
  exact claim_C5 true [⟨0, 0, 1, some 5⟩, ⟨0, 0, 2, some 15⟩] 10 20
    (by norm_num) (by norm_num)

/-- Claim C5 fails as universally stated: with a negative weight the
percentage can strictly decrease as the threshold grows (thresholds 10 and
20 here). -/
theorem claim_C5_cex :
    summarize_pct true [⟨0, 0, -1, some 15⟩, ⟨0, 0, 2, some 1⟩] 20 <
      summarize_pct true [⟨0, 0, -1, some 15⟩, ⟨0, 0, 2, some 1⟩] 10 := by
  norm_num [summarize_pct, totalPop, withinPop, ttLe]

/-- Claim C8 (amended): snapping an empty query point set returns an empty
list without any error; only a nonempty query against an empty node index
fails, and with a generic unhandled error, not a dedicated
`EmptyInputError` (no such class exists in the source). -/
theorem claim_C8 : ∀ (ns : List NodePt) (pts : List (ℚ × ℚ)),
    (pts = [] → snap_to_nearest_nodes ns pts = .ok []) ∧
    (pts ≠ [] → ns = [] → snap_to_nearest_nodes ns pts = .error .emptyNodeIndex) := by
  intro ns pts
  constructor
  · rintro rfl
    rfl
  · intro hp hn
    subst hn
    have : pts.isEmpty = false := by simpa [List.isEmpty_iff] using hp
    simp [snap_to_nearest_nodes, this]

theorem claim_C8_witness :
    snap_to_nearest_nodes [] [((0 : ℚ), (0 : ℚ))] = .error .emptyNodeIndex :=
  (claim_C8 [] [((0 : ℚ), (0 : ℚ))]).2 (by simp) rfl

/-- Claim C8 fails as stated: snapping an empty query set against a
nonempty node index returns an empty list instead of raising any error. -/
theorem claim_C8_cex :
    snap_to_nearest_nodes [⟨0, 0, 0⟩] [] = .ok [] := rfl

theorem zip_self_map {α β : Type} (l : List α) (f : α → β) :
    l.zip (l.map f) = l.map (fun a => (a, f a)) := by
  simpa using List.zip_map' id f l

theorem attach_cons (n0 : NodePt) (rest : List NodePt) (lengths : List (Nat × ℚ))
    (pts : List PopRow) :
    attach_travel_times (n0 :: rest) lengths pts =
      .ok (pts.map (fun p =>
        { p with travel_time_min :=
            (List.lookup (nearest1 n0 rest (p.x, p.y)) lengths).map (fun s => s / 60) })) := by
  by_cases hp : pts = []
  · subst hp
    rfl
  · have hne : (pts.map (fun p => (p.x, p.y))).isEmpty = false := by
      simpa [List.isEmpty_iff] using hp
    simp only [attach_travel_times, snap_to_nearest_nodes, hne, if_false, Bool.false_eq_true,
      List.map_map]
    rw [zip_self_map, List.map_map]
    rfl

/-- Claim C3: `attach_travel_times` sets `travel_time_min` to
`lengths[snap(p)] / 60` exactly when the snapped node is present in the
mapping, and to the undefined marker (never a numeric default) when it is
absent. -/
theorem claim_C3 : ∀ (ns : List NodePt) (lengths : List (Nat × ℚ)) (pts : List PopRow),
    ns ≠ [] →
    ∃ out, attach_travel_times ns lengths pts = .ok out ∧
      out.length = pts.length ∧
      ∀ (i : Nat) (p : PopRow), pts[i]? = some p →
        ∃ n, nearestNode ns (p.x, p.y) = some n ∧
          (∀ s, List.lookup n lengths = some s →
            out[i]? = some { p with travel_time_min := some (s / 60) }) ∧
          (List.lookup n lengths = none →
            out[i]? = some { p with travel_time_min := none }) := by
  intro ns lengths pts hns
  cases ns with
  | nil => exact absurd rfl hns
  | cons n0 rest =>
    refine ⟨_, attach_cons n0 rest lengths pts, by simp, ?_⟩
    intro i p hip
    refine ⟨nearest1 n0 rest (p.x, p.y), rfl, ?_, ?_⟩
    · intro s hs
      simp [List.getElem?_map, hip, hs]
    · intro hnone
      simp [List.getElem?_map, hip, hnone]

theorem claim_C3_witness :
    ∃ out, attach_travel_times [⟨7, 0, 0⟩] [(7, 30)] [⟨0, 0, 1, none⟩] = .ok out ∧
      out.length = 1 ∧
      ∀ (i : Nat) (p : PopRow), [(⟨0, 0, 1, none⟩ : PopRow)][i]? = some p →
        ∃ n, nearestNode [⟨7, 0, 0⟩] (p.x, p.y) = some n ∧
          (∀ s, List.lookup n [(7, (30 : ℚ))] = some s →
            out[i]? = some { p with travel_time_min := some (s / 60) }) ∧
          (List.lookup n [(7, (30 : ℚ))] = none →
            out[i]? = some { p with travel_time_min := none }) :=
  claim_C3 [⟨7, 0, 0⟩] [(7, 30)] [⟨0, 0, 1, none⟩] (by simp)

/-- Claim C9: `compute_accessibility` is deterministic: two calls on
identical graph, facility and cutoff inputs return identical node-seconds
mappings. -/
theorem claim_C9 : ∀ (g1 g2 : Graph) (f1 f2 : List (ℚ × ℚ)) (c1 c2 : ℚ),
    g1 = g2 → f1 = f2 → c1 = c2 →
    compute_accessibility g1 f1 c1 = compute_accessibility g2 f2 c2 := by
  intro g1 g2 f1 f2 c1 c2 h1 h2 h3
  subst h1
  subst h2
  subst h3
  rfl

theorem claim_C9_witness :
    compute_accessibility exampleGraph exampleFacility 3600 =
      compute_accessibility exampleGraph exampleFacility 3600 :=
  claim_C9 exampleGraph exampleGraph exampleFacility exampleFacility 3600 3600 rfl rfl rfl

/-- Claim C10: `attach_travel_times` rebinds `self.pop_points` to a fresh
copy; every object allocated before the call, in particular the caller's
original population GeoDataFrame, is left unchanged. -/
theorem claim_C10 : ∀ (ns : List NodePt) (lengths : List (Nat × ℚ))
    (st st' : PipelineState),
    attach_travel_times_step ns lengths st = .ok st' →
    st'.pop_points_ref = st.store.length ∧
    (∀ i, i < st.store.length → st'.store[i]? = st.store[i]?) := by
  intro ns lengths st st' h
  unfold attach_travel_times_step at h
  cases ha : attach_travel_times ns lengths ((st.store.get? st.pop_points_ref).getD []) with
  | error e => rw [ha] at h; cases h
  | ok rows =>
    rw [ha] at h
    cases h
    refine ⟨rfl, ?_⟩
    intro i hi
    simp [List.getElem?_append, hi]

theorem claim_C10_witness :
    (⟨[[⟨0, 0, 1, none⟩], [⟨0, 0, 1, none⟩]], 1⟩ : PipelineState).pop_points_ref =
        ([[(⟨0, 0, 1, none⟩ : PopRow)]] : List (List PopRow)).length ∧
      (∀ i, i < ([[(⟨0, 0, 1, none⟩ : PopRow)]] : List (List PopRow)).length →
        ((⟨[[⟨0, 0, 1, none⟩], [⟨0, 0, 1, none⟩]], 1⟩ : PipelineState).store[i]? =
          ([[(⟨0, 0, 1, none⟩ : PopRow)]] : List (List PopRow))[i]?)) :=
  claim_C10 [⟨0, 0, 0⟩] [] ⟨[[⟨0, 0, 1, none⟩]], 0⟩ ⟨[[⟨0, 0, 1, none⟩], [⟨0, 0, 1, none⟩]], 1⟩
    (by rw [attach_travel_times_step]; rfl)

/-- Claim C6: an empty snapped facility set yields the empty mapping (not
an error); attaching the empty mapping marks every population point
undefined; summarising all-undefined points gives 0 at every threshold. -/
theorem claim_C6 :
    (∀ (g : Graph) (facilities : List (ℚ × ℚ)) (cutoff : ℚ),
      snap_to_nearest_nodes g.nodes facilities = .ok [] →
      compute_accessibility g facilities cutoff = .ok []) ∧
    (∀ (ns : List NodePt) (pts : List PopRow), ns ≠ [] →
      attach_travel_times ns [] pts =
        .ok (pts.map (fun p => { p with travel_time_min := none }))) ∧
    (∀ (b : Bool) (rows : List PopRow) (ts : List ℚ),
      (∀ r ∈ rows, r.travel_time_min = none) →
      summarize_access b rows ts = ts.map (fun t => (t, 0))) := by
  refine ⟨?_, ?_, ?_⟩
  · intro g facilities cutoff hsnap
    simp [compute_accessibility, hsnap]
  · intro ns pts hns
    cases ns with
    | nil => exact absurd rfl hns
    | cons n0 rest =>
      rw [attach_cons]
      simp
  · intro b rows ts hnone
    have hfil : ∀ t : ℚ, rows.filter (fun r => ttLe r t) = [] := by
      intro t
      rw [List.filter_eq_nil_iff]
      intro r hr
      simp [ttLe, hnone r hr]
    have hpct : ∀ t : ℚ, summarize_pct b rows t = 0 := by
      intro t
      cases b with
      | false => simp [summarize_pct, withinCount, hfil t]
      | true => simp [summarize_pct, withinPop, hfil t]
    simp only [summarize_access]
    exact List.map_congr_left (fun t _ => by rw [hpct t])

theorem setFirstUV_getElem? (G : List GEdge) (u v : Nat) (tt : ℚ) (i : Nat) :
    (setFirstUV G u v tt)[i]? = G[i]? ∨
    ∃ g, G[i]? = some g ∧ g.u = u ∧ g.v = v ∧
      (setFirstUV G u v tt)[i]? = some { g with travel_time_sec := some tt } := by
  induction G generalizing i with
  | nil => left; rfl
  | cons g gs ih =>
    by_cases h : g.u = u ∧ g.v = v
    · cases i with
      | zero => exact Or.inr ⟨g, by simp, h.1, h.2, by simp [setFirstUV, h]⟩
      | succ i => left; simp [setFirstUV, h]
    · cases i with
      | zero => left; simp [setFirstUV, h]
      | succ i =>
        rcases ih i with hsame | ⟨g', hg', hu, hv, hset⟩
        · left; simpa [setFirstUV, h] using hsame
        · exact Or.inr ⟨g', by simpa using hg', hu, hv, by simpa [setFirstUV, h] using hset⟩

theorem setEdgeTime_getElem? (G : List GEdge) (u v k : Nat) (tt : ℚ) (i : Nat) :
    (setEdgeTime G u v k tt)[i]? = G[i]? ∨
    ∃ g, G[i]? = some g ∧ g.u = u ∧ g.v = v ∧
      (setEdgeTime G u v k tt)[i]? = some { g with travel_time_sec := some tt } := by
  unfold setEdgeTime
  split_ifs with h1 h2
  · cases hg : G[i]? with
    | none => left; simp [List.getElem?_map, hg]
    | some g =>
      by_cases hm : g.u = u ∧ g.v = v ∧ g.key = k
      · exact Or.inr ⟨g, rfl, hm.1, hm.2.1, by simp [List.getElem?_map, hg, hm]⟩
      · left; simp [List.getElem?_map, hg, hm]
  · exact setFirstUV_getElem? G u v tt i
  · left; rfl

theorem setEdgeTime_exact (G : List GEdge) (u v k : Nat) (tt : ℚ) (i : Nat) (g : GEdge)
    (hg : G[i]? = some g) (hu : g.u = u) (hv : g.v = v) (hk : g.key = k) :
    (setEdgeTime G u v k tt)[i]? = some { g with travel_time_sec := some tt } := by
  have hmem : g ∈ G := List.mem_iff_getElem?.mpr ⟨i, hg⟩
  have hany : G.any (fun g => g.u = u ∧ g.v = v ∧ g.key = k) = true := by
    rw [List.any_eq_true]
    exact ⟨g, hmem, by simp [hu, hv, hk]⟩
  unfold setEdgeTime
  rw [if_pos hany]
  simp [List.getElem?_map, hg, hu, hv, hk]

theorem setEdgeTime_keeps_some (G : List GEdge) (u v k : Nat) (tt : ℚ) (i : Nat)
    (g : GEdge) (hg : G[i]? = some g) (hs : g.travel_time_sec.isSome) :
    ∃ g', (setEdgeTime G u v k tt)[i]? = some g' ∧ g'.travel_time_sec.isSome := by
  rcases setEdgeTime_getElem? G u v k tt i with hsame | ⟨g', hg', _, _, hset⟩
  · exact ⟨g, by rw [hsame, hg], hs⟩
  · rw [hg] at hg'
    cases hg'
    exact ⟨_, hset, by simp⟩

theorem assignToGraph_keeps_some (d : List ((Nat × Nat × Nat) × ℚ)) (G : List GEdge)
    (i : Nat) (g : GEdge) (hg : G[i]? = some g) (hs : g.travel_time_sec.isSome) :
    ∃ g', (assignToGraph G d)[i]? = some g' ∧ g'.travel_time_sec.isSome := by
  induction d generalizing G g with
  | nil => exact ⟨g, hg, hs⟩
  | cons e d ih =>
    obtain ⟨g1, hg1, hs1⟩ := setEdgeTime_keeps_some G e.1.1 e.1.2.1 e.1.2.2 e.2 i g hg hs
    exact ih _ _ hg1 hs1

theorem setEdgeTime_triple (G : List GEdge) (u v k : Nat) (tt : ℚ) (i : Nat) :
    ((setEdgeTime G u v k tt)[i]?).map (fun g => (g.u, g.v, g.key)) =
      (G[i]?).map (fun g => (g.u, g.v, g.key)) := by
  rcases setEdgeTime_getElem? G u v k tt i with hsame | ⟨g, hg, _, _, hset⟩
  · rw [hsame]
  · rw [hset, hg]
    rfl

theorem assignToGraph_triple (d : List ((Nat × Nat × Nat) × ℚ)) (G : List GEdge) (i : Nat) :
    ((assignToGraph G d)[i]?).map (fun g => (g.u, g.v, g.key)) =
      (G[i]?).map (fun g => (g.u, g.v, g.key)) := by
  induction d generalizing G with
  | nil => rfl
  | cons e d ih =>
    calc ((assignToGraph (setEdgeTime G e.1.1 e.1.2.1 e.1.2.2 e.2) d)[i]?).map
          (fun g => (g.u, g.v, g.key))
        = ((setEdgeTime G e.1.1 e.1.2.1 e.1.2.2 e.2)[i]?).map (fun g => (g.u, g.v, g.key)) :=
          ih _
      _ = (G[i]?).map (fun g => (g.u, g.v, g.key)) := setEdgeTime_triple G _ _ _ _ i

theorem assignToGraph_covered (d : List ((Nat × Nat × Nat) × ℚ)) (G : List GEdge)
    (i : Nat) (g : GEdge) (hg : G[i]? = some g)
    (hcov : ∃ e ∈ d, e.1.1 = g.u ∧ e.1.2.1 = g.v ∧ e.1.2.2 = g.key) :
    ∃ g', (assignToGraph G d)[i]? = some g' ∧ g'.travel_time_sec.isSome := by
  obtain ⟨e, hed, hu, hv, hk⟩ := hcov
  obtain ⟨d1, d2, rfl⟩ := List.append_of_mem hed
  have hsplit : assignToGraph G (d1 ++ e :: d2) =
      assignToGraph (setEdgeTime (assignToGraph G d1) e.1.1 e.1.2.1 e.1.2.2 e.2) d2 := by
    unfold assignToGraph
    rw [List.foldl_append, List.foldl_cons]
  rw [hsplit]
  have htr := assignToGraph_triple d1 G i
  rw [hg] at htr
  cases hg1 : (assignToGraph G d1)[i]? with
  | none => rw [hg1] at htr; cases htr
  | some g1 =>
    rw [hg1] at htr
    simp only [Option.map_some', Option.some.injEq, Prod.mk.injEq] at htr
    have hset := setEdgeTime_exact (assignToGraph G d1) e.1.1 e.1.2.1 e.1.2.2 e.2 i g1
      hg1 (by rw [htr.1, hu]) (by rw [htr.2.1, hv]) (by rw [htr.2.2, hk])
    exact assignToGraph_keeps_some d2 _ i _ hset (by simp)

theorem assignToGraph_origin (rows : List EdgeRowW) (d : List ((Nat × Nat × Nat) × ℚ))
    (hd : ∀ e ∈ d, ∃ r ∈ rows, e.1.1 = r.u ∧ e.1.2.1 = r.v ∧ e.2 = r.travel_time_sec)
    (G : List GEdge) (i : Nat) :
    (assignToGraph G d)[i]? = G[i]? ∨
    ∃ g r, G[i]? = some g ∧ r ∈ rows ∧
      (assignToGraph G d)[i]? = some { g with travel_time_sec := some r.travel_time_sec } := by
  induction d generalizing G with
  | nil => left; rfl
  | cons e d ih =>
    have hd' : ∀ e' ∈ d, ∃ r ∈ rows, e'.1.1 = r.u ∧ e'.1.2.1 = r.v ∧ e'.2 = r.travel_time_sec :=
      fun e' he' => hd e' (List.mem_cons_of_mem e he')
    obtain ⟨re, hre, _, _, hrtt⟩ := hd e (List.mem_cons_self e d)
    have hstep : assignToGraph G (e :: d) =
        assignToGraph (setEdgeTime G e.1.1 e.1.2.1 e.1.2.2 e.2) d := rfl
    rw [hstep]
    rcases ih hd' (setEdgeTime G e.1.1 e.1.2.1 e.1.2.2 e.2) with hsame | ⟨g1, r, hg1, hr, hres⟩
    · rcases setEdgeTime_getElem? G e.1.1 e.1.2.1 e.1.2.2 e.2 i with hs2 | ⟨g, hg, _, _, hset⟩
      · left; rw [hsame, hs2]
      · right
        exact ⟨g, re, hg, hre, by rw [hsame, hset, hrtt]⟩
    · rcases setEdgeTime_getElem? G e.1.1 e.1.2.1 e.1.2.2 e.2 i with hs2 | ⟨g, hg, _, _, hset⟩
      · right
        rw [hs2] at hg1
        exact ⟨g1, r, hg1, hr, hres⟩
      · right
        rw [hset] at hg1
        cases hg1
        exact ⟨g, r, hg, hr, by simpa using hres⟩

/-- Claim C7 (amended): after weight assignment and write-back, every graph
edge carries a `travel_time_sec` attribute that is nonnegative and finite
(it equals some row's `(length/1000)/speed * 3600` with a positive resolved
speed); it is strictly positive whenever the edge lengths are strictly
positive, but a zero-length edge yields exactly 0, not a positive value. -/
theorem claim_C7 : ∀ (table : List (String × ℚ)) (edges : List EdgeRow) (G : List GEdge),
    (∀ p ∈ table, 0 < p.2) →
    (∀ e ∈ edges, 0 ≤ e.length) →
    (∀ g ∈ G, g.travel_time_sec = none) →
    (∀ g ∈ G, ∃ e ∈ edges, e.u = g.u ∧ e.v = g.v ∧ e.key = g.key) →
    ∀ g' ∈ assignToGraph G (edge_time_dict (assign_speeds_and_travel_time table edges)),
      ∃ w, g'.travel_time_sec = some w ∧ 0 ≤ w ∧
        ((∀ e ∈ edges, 0 < e.length) → 0 < w) := by
  intro table edges G htab hlen hinit hcov g' hg'
  obtain ⟨i, hi⟩ := List.mem_iff_getElem?.mp hg'
  have hrows : ∀ r ∈ assign_speeds_and_travel_time table edges,
      ∃ e ∈ edges, r.u = e.u ∧ r.v = e.v ∧ r.key = e.key ∧
        r.travel_time_sec = e.length / 1000 / speedOf table e.highway * 3600 := by
    intro r hr
    obtain ⟨e, he, rfl⟩ := List.mem_map.mp hr
    exact ⟨e, he, rfl, rfl, rfl, rfl⟩
  have hd : ∀ e ∈ edge_time_dict (assign_speeds_and_travel_time table edges),
      ∃ r ∈ assign_speeds_and_travel_time table edges,
        e.1.1 = r.u ∧ e.1.2.1 = r.v ∧ e.2 = r.travel_time_sec := by
    intro e he
    obtain ⟨r, hr, rfl⟩ := List.mem_map.mp he
    exact ⟨r, hr, rfl, rfl, rfl⟩
  rcases assignToGraph_origin (assign_speeds_and_travel_time table edges) _ hd G i with
    hsame | ⟨g, r, hg, hr, hres⟩
  · -- impossible: the write-back must have set the attribute of a covered edge
    rw [hi] at hsame
    have hgG : g' ∈ G := List.mem_iff_getElem?.mpr ⟨i, hsame.symm⟩
    obtain ⟨e, he, heu, hev, hek⟩ := hcov g' hgG
    have hentry : ∃ en ∈ edge_time_dict (assign_speeds_and_travel_time table edges),
        en.1.1 = g'.u ∧ en.1.2.1 = g'.v ∧ en.1.2.2 = g'.key := by
      refine ⟨((e.u, e.v, e.key),
        e.length / 1000 / speedOf table e.highway * 3600), ?_, heu, hev, hek⟩
      unfold edge_time_dict assign_speeds_and_travel_time
      rw [List.map_map]
      exact List.mem_map.mpr ⟨e, he, rfl⟩
    obtain ⟨g2, hg2, hs2⟩ := assignToGraph_covered _ G i g' hsame.symm hentry
    rw [hi] at hg2
    cases hg2
    rw [hinit g' hgG] at hs2
    cases hs2
  · rw [hi] at hres
    cases hres
    obtain ⟨e, he, _, _, _, htt⟩ := hrows r hr
    have hsp : 0 < speedOf table e.highway := speedOf_pos table htab e.highway
    refine ⟨r.travel_time_sec, rfl, ?_, ?_⟩
    · rw [htt]
      have h1 : 0 ≤ e.length / 1000 := div_nonneg (hlen e he) (by norm_num)
      exact mul_nonneg (div_nonneg h1 (le_of_lt hsp)) (by norm_num)
    · intro hpos
      rw [htt]
      have h1 : 0 < e.length / 1000 := by
        have := hpos e he
        positivity
      exact mul_pos (div_pos h1 hsp) (by norm_num)

theorem claim_C7_witness :
    ∃ w, (⟨0, 1, 0, some (72 / 5)⟩ : GEdge).travel_time_sec = some w ∧ 0 ≤ w ∧
      ((∀ e ∈ [(⟨0, 1, 0, 100, .tag "residential"⟩ : EdgeRow)], 0 < e.length) → 0 < w) := by
  have hl : List.lookup "residential" default_speeds = some 25 := by rfl
  have heq : assignToGraph [⟨0, 1, 0, none⟩]
      (edge_time_dict (assign_speeds_and_travel_time default_speeds
        [⟨0, 1, 0, 100, .tag "residential"⟩])) = [⟨0, 1, 0, some (72 / 5)⟩] := by
    norm_num [assignToGraph, edge_time_dict, assign_speeds_and_travel_time, speedOf,
      _highway_str, hl, setEdgeTime]
  exact claim_C7 default_speeds [⟨0, 1, 0, 100, .tag "residential"⟩] [⟨0, 1, 0, none⟩]
    (by norm_num [default_speeds]) (by norm_num) (by norm_num)
    (by intro g hg
        simp only [List.mem_singleton] at hg
        exact ⟨⟨0, 1, 0, 100, .tag "residential"⟩, List.mem_cons_self _ _, by simp [hg]⟩)
    ⟨0, 1, 0, some (72 / 5)⟩ (by rw [heq]; exact List.mem_cons_self _ _)

/-- Claim C7 fails as universally stated: a zero-length edge (the data
model allows `length_m = 0`) receives `travel_time_sec = 0`, which is not
strictly positive. -/
theorem claim_C7_cex :
    ¬ ∀ g' ∈ assignToGraph [⟨0, 1, 0, none⟩]
        (edge_time_dict (assign_speeds_and_travel_time default_speeds
          [⟨0, 1, 0, 0, .tag "residential"⟩])),
        ∀ w, g'.travel_time_sec = some w → 0 < w := by
  intro h
  have hl : List.lookup "residential" default_speeds = some 25 := by rfl
  have heq : assignToGraph [⟨0, 1, 0, none⟩]
      (edge_time_dict (assign_speeds_and_travel_time default_speeds
        [⟨0, 1, 0, 0, .tag "residential"⟩])) = [⟨0, 1, 0, some 0⟩] := by
    norm_num [assignToGraph, edge_time_dict, assign_speeds_and_travel_time, speedOf,
      _highway_str, hl, setEdgeTime]
  have h0 := h ⟨0, 1, 0, some 0⟩ (by rw [heq]; exact List.mem_cons_self _ _) 0 rfl
  exact lt_irrefl 0 h0

theorem claim_C6_witness :
    compute_accessibility ⟨exampleNodes, exampleGraph.edges⟩ [] 3600 = .ok [] ∧
    attach_travel_times [⟨0, 0, 0⟩] [] [⟨5, 5, 1, some 3⟩] =
      .ok [⟨5, 5, 1, none⟩] ∧
    summarize_access true [⟨5, 5, 1, none⟩] [10, 20] = [(10, 0), (20, 0)] := by
  refine ⟨claim_C6.1 ⟨exampleNodes, exampleGraph.edges⟩ [] 3600 rfl, ?_, ?_⟩
  · have h := claim_C6.2.1 [⟨0, 0, 0⟩] [⟨5, 5, 1, some 3⟩] (by simp)
    simpa using h
  · have h := claim_C6.2.2 true [⟨5, 5, 1, none⟩] [10, 20] (by simp)
    simpa using h

/- Shortest-path development: minimum selection, walk costs, relaxation. -/

theorem foldl_min_mem (xs : List ℚ) (x : ℚ) :
    xs.foldl min x = x ∨ xs.foldl min x ∈ xs := by
  induction xs generalizing x with
  | nil => left; rfl
  | cons y ys ih =>
    rcases ih (min x y) with h | h
    · rcases min_choice x y with hm | hm
      · left; rw [List.foldl_cons, h, hm]
      · right; rw [List.foldl_cons, h, hm]; exact List.mem_cons_self _ _
    · right; exact List.mem_cons_of_mem _ h

theorem foldl_min_le (xs : List ℚ) (x : ℚ) :
    xs.foldl min x ≤ x ∧ ∀ y ∈ xs, xs.foldl min x ≤ y := by
  induction xs generalizing x with
  | nil => exact ⟨le_refl x, by simp⟩
  | cons y ys ih =>
    obtain ⟨h1, h2⟩ := ih (min x y)
    refine ⟨le_trans h1 (min_le_left x y), ?_⟩
    intro z hz
    rcases List.mem_cons.mp hz with rfl | hz
    · exact le_trans h1 (min_le_right x z)
    · exact h2 z hz

theorem minList_mem {l : List ℚ} {m : ℚ} (h : minList l = some m) : m ∈ l := by
  cases l with
  | nil => cases h
  | cons x xs =>
    obtain rfl : xs.foldl min x = m := Option.some.inj h
    rcases foldl_min_mem xs x with h | h
    · rw [h]; exact List.mem_cons_self _ _
    · exact List.mem_cons_of_mem _ h

theorem minList_le {l : List ℚ} {m : ℚ} (h : minList l = some m) :
    ∀ y ∈ l, m ≤ y := by
  cases l with
  | nil => cases h
  | cons x xs =>
    obtain rfl : xs.foldl min x = m := Option.some.inj h
    intro y hy
    rcases List.mem_cons.mp hy with rfl | hy
    · exact (foldl_min_le xs y).1
    · exact (foldl_min_le xs x).2 y hy

theorem minList_some_of_mem {l : List ℚ} {y : ℚ} (h : y ∈ l) :
    ∃ m, minList l = some m := by
  cases l with
  | nil => cases h
  | cons x xs => exact ⟨_, rfl⟩

theorem pweights_mem {es : List WEdge} {u v : Nat} {w : ℚ} :
    w ∈ pweights es u v ↔ ∃ e ∈ es, e.u = u ∧ e.v = v ∧ e.w = w := by
  unfold pweights
  rw [List.mem_filterMap]
  constructor
  · rintro ⟨e, he, hfe⟩
    by_cases hc : e.u = u ∧ e.v = v
    · rw [if_pos hc] at hfe
      exact ⟨e, he, hc.1, hc.2, Option.some.inj hfe⟩
    · rw [if_neg hc] at hfe
      cases hfe
  · rintro ⟨e, he, hu, hv, hw⟩
    exact ⟨e, he, by rw [if_pos ⟨hu, hv⟩, hw]⟩

theorem ewt_mem {es : List WEdge} {u v : Nat} {w : ℚ} (h : ewt es u v = some w) :
    ∃ e ∈ es, e.u = u ∧ e.v = v ∧ e.w = w :=
  pweights_mem.mp (minList_mem h)

theorem ewt_le {es : List WEdge} {u v : Nat} {w : ℚ} (h : ewt es u v = some w) :
    ∀ e ∈ es, e.u = u → e.v = v → w ≤ e.w := by
  intro e he hu hv
  exact minList_le h e.w (pweights_mem.mpr ⟨e, he, hu, hv, rfl⟩)

theorem ewt_some_of_edge {es : List WEdge} {e : WEdge} (he : e ∈ es) :
    ∃ w, ewt es e.u e.v = some w ∧ w ≤ e.w := by
  obtain ⟨m, hm⟩ := minList_some_of_mem (pweights_mem.mpr ⟨e, he, rfl, rfl, rfl⟩)
  exact ⟨m, hm, ewt_le hm e he rfl rfl⟩

theorem ewt_nonneg {es : List WEdge} (hw : ∀ e ∈ es, 0 ≤ e.w) {u v : Nat} {w : ℚ}
    (h : ewt es u v = some w) : 0 ≤ w := by
  obtain ⟨e, he, _, _, rfl⟩ := ewt_mem h
  exact hw e he

theorem walkCost_nonneg {es : List WEdge} (hw : ∀ e ∈ es, 0 ≤ e.w) :
    ∀ {p : List Nat} {c : ℚ}, walkCost es p = some c → 0 ≤ c := by
  intro p
  induction p with
  | nil => intro c h; cases h
  | cons n rest ih =>
    intro c h
    cases rest with
    | nil =>
      obtain rfl : (0 : ℚ) = c := Option.some.inj h
      exact le_refl 0
    | cons u rest' =>
      unfold walkCost at h
      cases hew : ewt es u n with
      | none => rw [hew] at h; cases h
      | some w =>
        cases hc : walkCost es (u :: rest') with
        | none => rw [hew, hc] at h; cases h
        | some cr =>
          rw [hew, hc] at h
          obtain rfl : w + cr = c := Option.some.inj h
          have h1 : 0 ≤ w := ewt_nonneg hw hew
          have h2 : 0 ≤ cr := ih hc
          linarith

theorem walkCost_cons_cons {es : List WEdge} {n u : Nat} {rest : List Nat} {c : ℚ}
    (h : walkCost es (n :: u :: rest) = some c) :
    ∃ w cr, ewt es u n = some w ∧ walkCost es (u :: rest) = some cr ∧ c = w + cr := by
  unfold walkCost at h
  cases hew : ewt es u n with
  | none => rw [hew] at h; cases h
  | some w =>
    cases hc : walkCost es (u :: rest) with
    | none => rw [hew, hc] at h; cases h
    | some cr =>
      rw [hew, hc] at h
      exact ⟨w, cr, rfl, rfl, (Option.some.inj h).symm⟩

theorem walkCost_cons_intro {es : List WEdge} {u : Nat} {rest : List Nat} {cr : ℚ}
    (hc : walkCost es (u :: rest) = some cr) {v : Nat} {w : ℚ}
    (hew : ewt es u v = some w) : walkCost es (v :: u :: rest) = some (w + cr) := by
  unfold walkCost
  rw [hew, hc]

theorem walkCost_append_some {es : List WEdge} :
    ∀ {a : List Nat} {x : Nat} {b : List Nat} {c : ℚ},
    walkCost es (a ++ x :: b) = some c →
    ∃ c1 c2, walkCost es (a ++ [x]) = some c1 ∧ walkCost es (x :: b) = some c2 ∧
      c = c1 + c2 := by
  intro a
  induction a with
  | nil =>
    intro x b c h
    exact ⟨0, c, rfl, h, by ring⟩
  | cons y a' ih =>
    intro x b c h
    cases a' with
    | nil =>
      obtain ⟨w, cr, hew, hc, rfl⟩ := walkCost_cons_cons h
      exact ⟨w + 0, cr,
        walkCost_cons_intro (show walkCost es [x] = some 0 from rfl) hew, hc, by ring⟩
    | cons z a'' =>
      obtain ⟨w, cr, hew, hc, rfl⟩ := walkCost_cons_cons h
      obtain ⟨c1, c2, h1, h2, rfl⟩ := ih hc
      exact ⟨w + c1, c2, walkCost_cons_intro h1 hew, h2, by ring⟩

theorem walkCost_append_intro {es : List WEdge} :
    ∀ {a : List Nat} {x : Nat} {c1 : ℚ}, walkCost es (a ++ [x]) = some c1 →
    ∀ {b : List Nat} {c2 : ℚ}, walkCost es (x :: b) = some c2 →
    walkCost es (a ++ x :: b) = some (c1 + c2) := by
  intro a
  induction a with
  | nil =>
    intro x c1 h1 b c2 h2
    obtain rfl : (0 : ℚ) = c1 := Option.some.inj h1
    simpa using h2
  | cons y a' ih =>
    intro x c1 h1 b c2 h2
    cases a' with
    | nil =>
      obtain ⟨w, cr, hew, hc, rfl⟩ := walkCost_cons_cons h1
      have hcr : cr = 0 := by
        have h0 : some cr = some (0 : ℚ) := by
          rw [← hc]
          rfl
        exact Option.some.inj h0
      subst hcr
      have h3 := walkCost_cons_intro h2 hew
      rw [show w + 0 + c2 = w + c2 by ring]
      exact h3
    | cons z a'' =>
      obtain ⟨w, cr, hew, hc, rfl⟩ := walkCost_cons_cons h1
      have hmid := ih hc h2
      have h3 := walkCost_cons_intro hmid hew
      rw [show w + cr + c2 = w + (cr + c2) by ring]
      exact h3

/- Walk structure lemmas. -/

theorem isWalkTo_single {es : List WEdge} {S : List Nat} {n : Nat} (h : n ∈ S) :
    IsWalkTo es S [n] n 0 :=
  ⟨rfl, ⟨n, h, rfl⟩, rfl⟩

theorem isWalkTo_head {es : List WEdge} {S : List Nat} {p : List Nat} {n : Nat} {c : ℚ}
    (h : IsWalkTo es S p n c) : ∃ rest, p = n :: rest := by
  obtain ⟨hh, _, _⟩ := h
  cases p with
  | nil => cases hh
  | cons x rest => exact ⟨rest, by rw [Option.some.inj hh]⟩

theorem isWalkTo_tail {es : List WEdge} {S : List Nat} {n u : Nat} {rest : List Nat} {c : ℚ}
    (h : IsWalkTo es S (n :: u :: rest) n c) :
    ∃ w cr, ewt es u n = some w ∧ IsWalkTo es S (u :: rest) u cr ∧ c = w + cr := by
  obtain ⟨_, ⟨s, hs, hlast⟩, hcost⟩ := h
  obtain ⟨w, cr, hew, hc, rfl⟩ := walkCost_cons_cons hcost
  refine ⟨w, cr, hew, ⟨rfl, ⟨s, hs, ?_⟩, hc⟩, rfl⟩
  rw [← List.getLast?_cons_cons (a := n)]
  exact hlast

theorem reach_step {es : List WEdge} {S : List Nat} {u : Nat} {du : ℚ}
    (h : Reach es S u du) {v : Nat} {w : ℚ} (hew : ewt es u v = some w) :
    Reach es S v (du + w) := by
  obtain ⟨p, hp⟩ := h
  obtain ⟨rest, rfl⟩ := isWalkTo_head hp
  obtain ⟨_, ⟨s, hs, hlast⟩, hcost⟩ := hp
  refine ⟨v :: u :: rest, rfl, ⟨s, hs, ?_⟩, ?_⟩
  · rw [List.getLast?_cons_cons]
    exact hlast
  · rw [add_comm]
    exact walkCost_cons_intro hcost hew

theorem walk_nodes_in_verts {es : List WEdge} {S : List Nat} :
    ∀ {p : List Nat} {n : Nat} {c : ℚ}, IsWalkTo es S p n c →
    ∀ x ∈ p, x ∈ verts es S := by
  intro p
  induction p with
  | nil => intro n c h; cases h.1
  | cons y rest ih =>
    intro n c h x hx
    obtain rfl : y = n := Option.some.inj h.1
    cases rest with
    | nil =>
      obtain ⟨_, ⟨s, hs, hlast⟩, _⟩ := h
      have hys : y = s := Option.some.inj hlast
      have hxy : x = y := List.mem_singleton.mp hx
      rw [hxy, hys]
      unfold verts
      rw [List.mem_dedup]
      exact List.mem_append.mpr (Or.inl (List.mem_append.mpr (Or.inl hs)))
    | cons u rest' =>
      obtain ⟨w, cr, hew, htail, _⟩ := isWalkTo_tail h
      rcases List.mem_cons.mp hx with rfl | hx
      · obtain ⟨e, he, _, hev, _⟩ := ewt_mem hew
        unfold verts
        rw [List.mem_dedup]
        refine List.mem_append.mpr (Or.inr ?_)
        rw [← hev]
        exact List.mem_map.mpr ⟨e, he, rfl⟩
      · exact ih htail x hx

theorem reach_mem_verts {es : List WEdge} {S : List Nat} {n : Nat} {c : ℚ}
    (h : Reach es S n c) : n ∈ verts es S := by
  obtain ⟨p, hp⟩ := h
  obtain ⟨rest, rfl⟩ := isWalkTo_head hp
  exact walk_nodes_in_verts hp n (List.mem_cons_self _ _)

theorem not_nodup_split {l : List Nat} (h : ¬ l.Nodup) :
    ∃ a x b c, l = a ++ x :: b ++ x :: c := by
  induction l with
  | nil => exact absurd List.nodup_nil h
  | cons y t ih =>
    by_cases hy : y ∈ t
    · obtain ⟨s, t2, rfl⟩ := List.append_of_mem hy
      exact ⟨[], y, s, t2, rfl⟩
    · have ht : ¬ t.Nodup := fun hn => h (List.nodup_cons.mpr ⟨hy, hn⟩)
      obtain ⟨a, x, b, c, rfl⟩ := ih ht
      exact ⟨y :: a, x, b, c, rfl⟩

theorem walk_drop_cycle {es : List WEdge} {S : List Nat}
    (hw : ∀ e ∈ es, 0 ≤ e.w) {a : List Nat} {x : Nat} {b c : List Nat} {n : Nat} {cost : ℚ}
    (h : IsWalkTo es S (a ++ x :: b ++ x :: c) n cost) :
    ∃ d, IsWalkTo es S (a ++ x :: c) n d ∧ d ≤ cost := by
  have hsh : (a ++ x :: b ++ x :: c : List Nat) = a ++ x :: (b ++ x :: c) := by
    rw [List.append_assoc, List.cons_append]
  rw [hsh] at h
  obtain ⟨hh, ⟨s, hs, hlast⟩, hcost⟩ := h
  obtain ⟨c1, cmid, h1, hmid, rfl⟩ := walkCost_append_some (a := a) (x := x) hcost
  have hmid' : walkCost es ((x :: b) ++ x :: c) = some cmid := by
    rw [List.cons_append]
    exact hmid
  obtain ⟨c2, c3, h2, h3, rfl⟩ := walkCost_append_some (a := x :: b) (x := x) hmid'
  have hc2 : 0 ≤ c2 := walkCost_nonneg hw h2
  refine ⟨c1 + c3, ⟨?_, ⟨s, hs, ?_⟩, walkCost_append_intro h1 h3⟩, by linarith⟩
  · cases a with
    | nil =>
      obtain rfl : x = n := Option.some.inj hh
      rfl
    | cons y a' =>
      obtain rfl : y = n := Option.some.inj hh
      rfl
  · rw [List.getLast?_append_cons] at hlast ⊢
    rw [show (x :: (b ++ x :: c) : List Nat) = (x :: b) ++ x :: c by
      rw [List.cons_append], List.getLast?_append_cons] at hlast
    exact hlast

theorem walk_reduce {es : List WEdge} {S : List Nat} (hw : ∀ e ∈ es, 0 ≤ e.w) :
    ∀ (m : Nat) (p : List Nat) (n : Nat) (c : ℚ), p.length ≤ m →
    IsWalkTo es S p n c →
    ∃ q d, IsWalkTo es S q n d ∧ d ≤ c ∧ q.Nodup := by
  intro m
  induction m with
  | zero =>
    intro p n c hl h
    obtain ⟨rest, rfl⟩ := isWalkTo_head h
    simp at hl
  | succ m ih =>
    intro p n c hl h
    by_cases hnd : p.Nodup
    · exact ⟨p, c, h, le_refl c, hnd⟩
    · obtain ⟨a, x, b, cc, rfl⟩ := not_nodup_split hnd
      obtain ⟨d, hq, hd⟩ := walk_drop_cycle hw h
      have hlen : (a ++ x :: cc).length ≤ m := by
        simp only [List.length_append, List.length_cons] at hl ⊢
        omega
      obtain ⟨q, d', hq', hd', hnd'⟩ := ih (a ++ x :: cc) n d hlen hq
      exact ⟨q, d', hq', le_trans hd' hd, hnd'⟩

theorem nodup_walk_length_le {es : List WEdge} {S : List Nat} {p : List Nat} {n : Nat}
    {c : ℚ} (h : IsWalkTo es S p n c) (hnd : p.Nodup) :
    p.length ≤ (verts es S).length := by
  have hsub : p.toFinset ⊆ (verts es S).toFinset := by
    intro x hx
    rw [List.mem_toFinset] at hx ⊢
    exact walk_nodes_in_verts h x hx
  have h1 : p.toFinset.card = p.length := by
    rw [List.card_toFinset, hnd.dedup]
  have h2 : (verts es S).toFinset.card = (verts es S).length := by
    unfold verts
    rw [List.card_toFinset, (List.nodup_dedup _).dedup]
  calc p.length = p.toFinset.card := h1.symm
    _ ≤ (verts es S).toFinset.card := Finset.card_le_card hsub
    _ = (verts es S).length := h2

/- Relaxation-table lemmas. -/

theorem tableLE_refl (t : Nat → Option ℚ) : tableLE t t :=
  fun _ c h => ⟨c, h, le_refl c⟩

theorem tableLE_trans {t1 t2 t3 : Nat → Option ℚ} (h12 : tableLE t1 t2)
    (h23 : tableLE t2 t3) : tableLE t1 t3 := by
  intro n c h
  obtain ⟨d, hd, hdc⟩ := h23 n c h
  obtain ⟨d', hd', hdd⟩ := h12 n d hd
  exact ⟨d', hd', le_trans hdd hdc⟩

theorem updMin_at {t : Nat → Option ℚ} {n : Nat} {c : ℚ} :
    ∃ d, updMin t n c n = some d ∧ d ≤ c := by
  unfold updMin
  rw [if_pos rfl]
  cases t n with
  | none => exact ⟨c, rfl, le_refl c⟩
  | some d => exact ⟨min c d, rfl, min_le_left c d⟩

theorem updMin_other {t : Nat → Option ℚ} {n : Nat} {c : ℚ} {m : Nat} (h : m ≠ n) :
    updMin t n c m = t m := by
  unfold updMin
  rw [if_neg h]

theorem updMin_le {t : Nat → Option ℚ} {n : Nat} {c : ℚ} : tableLE (updMin t n c) t := by
  intro m d hd
  by_cases h : m = n
  · subst h
    unfold updMin
    rw [if_pos rfl, hd]
    exact ⟨min c d, rfl, min_le_right c d⟩
  · exact ⟨d, by rw [updMin_other h]; exact hd, le_refl d⟩

theorem stepFn_le (es : List WEdge) (t : Nat → Option ℚ) (e : WEdge) :
    tableLE (stepFn es t e) t := by
  unfold stepFn
  cases t e.u with
  | none => exact tableLE_refl t
  | some du =>
    cases ewt es e.u e.v with
    | none => exact tableLE_refl t
    | some w => exact updMin_le

theorem foldl_stepFn_le (es : List WEdge) (l : List WEdge) (t : Nat → Option ℚ) :
    tableLE (List.foldl (stepFn es) t l) t := by
  induction l generalizing t with
  | nil => exact tableLE_refl t
  | cons e l ih =>
    rw [List.foldl_cons]
    exact tableLE_trans (ih (stepFn es t e)) (stepFn_le es t e)

theorem bfIter_le (es : List WEdge) (k : Nat) (t : Nat → Option ℚ) :
    tableLE (bfIter es k t) t := by
  induction k with
  | zero => exact tableLE_refl t
  | succ k ih =>
    exact tableLE_trans (foldl_stepFn_le es es (bfIter es k t)) ih

theorem initTable_sound {es : List WEdge} {S : List Nat} :
    ∀ n c, initTable S n = some c → Reach es S n c := by
  intro n c h
  unfold initTable at h
  by_cases hn : n ∈ S
  · rw [if_pos hn] at h
    obtain rfl : (0 : ℚ) = c := Option.some.inj h
    exact ⟨[n], isWalkTo_single hn⟩
  · rw [if_neg hn] at h
    cases h

theorem updMin_sound {es : List WEdge} {S : List Nat} {t : Nat → Option ℚ}
    (ht : ∀ n c, t n = some c → Reach es S n c) {v : Nat} {x : ℚ}
    (hx : Reach es S v x) : ∀ n c, updMin t v x n = some c → Reach es S n c := by
  intro n c h
  by_cases hn : n = v
  · subst hn
    unfold updMin at h
    rw [if_pos rfl] at h
    cases hv : t n with
    | none =>
      rw [hv] at h
      obtain rfl : x = c := Option.some.inj h
      exact hx
    | some d =>
      rw [hv] at h
      obtain rfl : min x d = c := Option.some.inj h
      rcases min_choice x d with hm | hm
      · rw [hm]; exact hx
      · rw [hm]; exact ht n d hv
  · rw [updMin_other hn] at h
    exact ht n c h

theorem stepFn_sound {es : List WEdge} {S : List Nat} {t : Nat → Option ℚ}
    (ht : ∀ n c, t n = some c → Reach es S n c) (e : WEdge) :
    ∀ n c, stepFn es t e n = some c → Reach es S n c := by
  unfold stepFn
  cases hu : t e.u with
  | none => exact ht
  | some du =>
    cases hew : ewt es e.u e.v with
    | none => exact ht
    | some w =>
      exact updMin_sound ht (reach_step (ht e.u du hu) hew)

theorem foldl_stepFn_sound {es : List WEdge} {S : List Nat} (l : List WEdge) :
    ∀ (t : Nat → Option ℚ), (∀ n c, t n = some c → Reach es S n c) →
    ∀ n c, List.foldl (stepFn es) t l n = some c → Reach es S n c := by
  induction l with
  | nil => intro t ht; exact ht
  | cons e l ih =>
    intro t ht
    rw [List.foldl_cons]
    exact ih (stepFn es t e) (stepFn_sound ht e)

theorem bfIter_sound {es : List WEdge} {S : List Nat} (k : Nat) :
    ∀ n c, bfIter es k (initTable S) n = some c → Reach es S n c := by
  induction k with
  | zero => exact initTable_sound
  | succ k ih =>
    exact fun n c h => foldl_stepFn_sound es (bfIter es k (initTable S)) ih n c h

theorem foldl_achieves {es : List WEdge} {l : List WEdge} {t : Nat → Option ℚ}
    {e : WEdge} (he : e ∈ l) {du : ℚ} (hdu : t e.u = some du) {w : ℚ}
    (hw : ewt es e.u e.v = some w) :
    ∃ c, List.foldl (stepFn es) t l e.v = some c ∧ c ≤ du + w := by
  obtain ⟨l1, l2, rfl⟩ := List.append_of_mem he
  rw [List.foldl_append, List.foldl_cons]
  set t1 := List.foldl (stepFn es) t l1 with ht1
  obtain ⟨du', hdu', hle⟩ := foldl_stepFn_le es l1 t e.u du hdu
  rw [← ht1] at hdu'
  have hstep : stepFn es t1 e = updMin t1 e.v (du' + w) := by
    unfold stepFn
    rw [hdu', hw]
  obtain ⟨c', hc', hcle⟩ : ∃ c', stepFn es t1 e e.v = some c' ∧ c' ≤ du' + w := by
    obtain ⟨d, hd, hdle⟩ := updMin_at (t := t1) (n := e.v) (c := du' + w)
    exact ⟨d, by rw [hstep]; exact hd, hdle⟩
  obtain ⟨c, hc, hcc⟩ := foldl_stepFn_le es l2 (stepFn es t1 e) e.v c' hc'
  exact ⟨c, hc, by linarith⟩

theorem bf_complete {es : List WEdge} {S : List Nat} :
    ∀ (k : Nat) (p : List Nat) (n : Nat) (c : ℚ), IsWalkTo es S p n c →
    p.length ≤ k + 1 →
    ∃ d, bfIter es k (initTable S) n = some d ∧ d ≤ c := by
  intro k
  induction k with
  | zero =>
    intro p n c h hl
    obtain ⟨rest, rfl⟩ := isWalkTo_head h
    have : rest = [] := by
      cases rest with
      | nil => rfl
      | cons u rest' => simp at hl
    subst this
    obtain ⟨_, ⟨s, hs, hlast⟩, hcost⟩ := h
    obtain rfl : n = s := Option.some.inj hlast
    obtain rfl : (0 : ℚ) = c := Option.some.inj hcost
    refine ⟨0, ?_, le_refl 0⟩
    unfold bfIter initTable
    rw [if_pos hs]
  | succ k ih =>
    intro p n c h hl
    obtain ⟨rest, rfl⟩ := isWalkTo_head h
    cases rest with
    | nil =>
      obtain ⟨_, ⟨s, hs, hlast⟩, hcost⟩ := h
      obtain rfl : n = s := Option.some.inj hlast
      obtain rfl : (0 : ℚ) = c := Option.some.inj hcost
      have h0 : initTable S n = some 0 := by
        unfold initTable
        rw [if_pos hs]
      obtain ⟨d, hd, hdle⟩ := bfIter_le es (k + 1) (initTable S) n 0 h0
      exact ⟨d, hd, hdle⟩
    | cons u rest' =>
      obtain ⟨w, cr, hew, htail, rfl⟩ := isWalkTo_tail h
      have hlen : (u :: rest').length ≤ k + 1 := by
        simp only [List.length_cons] at hl ⊢
        omega
      obtain ⟨du, hdu, hdule⟩ := ih (u :: rest') u cr htail hlen
      obtain ⟨e, he, heu, hev, _⟩ := ewt_mem hew
      have hwv : ewt es e.u e.v = some w := by rw [heu, hev]; exact hew
      have hach := foldl_achieves (t := bfIter es k (initTable S)) he
        (by rw [heu]; exact hdu) hwv
      obtain ⟨d, hd, hdle⟩ := hach
      rw [hev] at hd
      exact ⟨d, hd, by linarith⟩

theorem shortestTable_some_iff {es : List WEdge} {S : List Nat}
    (hw : ∀ e ∈ es, 0 ≤ e.w) (n : Nat) (d : ℚ) :
    shortestTable es S n = some d ↔ IsMinReach es S n d := by
  constructor
  · intro h
    refine ⟨bfIter_sound _ n d h, ?_⟩
    intro c hc
    obtain ⟨p, hp⟩ := hc
    obtain ⟨q, c', hq, hc'le, hnd⟩ :=
      walk_reduce hw (p.length) p n c (le_refl _) hp
    have hql := nodup_walk_length_le hq hnd
    obtain ⟨d2, hd2, hd2le⟩ := bf_complete (verts es S).length q n c' hq
      (le_trans hql (Nat.le_succ _))
    rw [show bfIter es (verts es S).length (initTable S) = shortestTable es S from rfl,
      h] at hd2
    obtain rfl : d = d2 := Option.some.inj hd2
    linarith
  · rintro ⟨hre, hmin⟩
    obtain ⟨p, hp⟩ := hre
    obtain ⟨q, c', hq, hc'le, hnd⟩ :=
      walk_reduce hw (p.length) p n d (le_refl _) hp
    have hql := nodup_walk_length_le hq hnd
    obtain ⟨d2, hd2, hd2le⟩ := bf_complete (verts es S).length q n c' hq
      (le_trans hql (Nat.le_succ _))
    have hd2re : Reach es S n d2 := bfIter_sound _ n d2 hd2
    have h1 : d ≤ d2 := hmin d2 hd2re
    have h2 : d2 = d := le_antisymm (by linarith) h1
    rw [← h2]
    exact hd2

theorem shortestTable_mem_verts {es : List WEdge} {S : List Nat} {n : Nat} {c : ℚ}
    (h : shortestTable es S n = some c) : n ∈ verts es S :=
  reach_mem_verts (bfIter_sound _ n c h)

theorem lookup_keyed (l : List Nat) (hnd : l.Nodup) (f : Nat → Option (Nat × ℚ))
    (hf : ∀ m p, f m = some p → p.1 = m) (n : Nat) :
    List.lookup n (l.filterMap f) =
      if n ∈ l then (f n).map (fun p => p.2) else none := by
  induction l with
  | nil => simp
  | cons m l ih =>
    obtain ⟨hm, hl⟩ := List.nodup_cons.mp hnd
    rw [List.filterMap_cons]
    cases hgm : f m with
    | none =>
      rw [ih hl]
      by_cases hnm : n = m
      · subst hnm
        rw [if_neg hm, if_pos (List.mem_cons_self n l), hgm]
        rfl
      · simp [List.mem_cons, hnm]
    | some p =>
      obtain ⟨p1, p2⟩ := p
      have hp1 : p1 = m := hf m (p1, p2) hgm
      subst hp1
      by_cases hnm : n = p1
      · subst hnm
        rw [List.lookup_cons, beq_self_eq_true n]
        rw [if_pos (List.mem_cons_self n l), hgm]
        rfl
      · rw [List.lookup_cons, beq_eq_false_iff_ne.mpr hnm]
        rw [ih hl]
        simp [List.mem_cons, hnm]

theorem msd_lookup (es : List WEdge) (S : List Nat) (cutoff : ℚ) (n : Nat) :
    List.lookup n (multi_source_dijkstra_path_length es S cutoff) =
      (shortestTable es S n).bind (fun d => if d ≤ cutoff then some d else none) := by
  have hf : ∀ m p, (match shortestTable es S m with
      | some d => if d ≤ cutoff then some (m, d) else none
      | none => none : Option (Nat × ℚ)) = some p → p.1 = m := by
    intro m p h
    cases hst : shortestTable es S m with
    | none => rw [hst] at h; cases h
    | some d =>
      rw [hst] at h
      have h2 : (if d ≤ cutoff then some (m, d) else none : Option (Nat × ℚ)) = some p := h
      by_cases hd : d ≤ cutoff
      · rw [if_pos hd] at h2
        rw [← Option.some.inj h2]
      · rw [if_neg hd] at h2
        cases h2
  unfold multi_source_dijkstra_path_length
  rw [lookup_keyed (verts es S) (List.nodup_dedup _) _ hf n]
  by_cases hv : n ∈ verts es S
  · rw [if_pos hv]
    cases hst : shortestTable es S n with
    | none => rw [Option.none_bind]; rfl
    | some d =>
      rw [Option.some_bind]
      show Option.map (fun p => p.2) (if d ≤ cutoff then some (n, d) else none) =
        if d ≤ cutoff then some d else none
      by_cases hd : d ≤ cutoff
      · rw [if_pos hd, if_pos hd]
        rfl
      · rw [if_neg hd, if_neg hd]
        rfl
  · rw [if_neg hv]
    cases hst : shortestTable es S n with
    | none => rw [Option.none_bind]
    | some c => exact absurd (shortestTable_mem_verts hst) hv

theorem snap_ok_of_ne_nil {ns : List NodePt} (h : ns ≠ []) (pts : List (ℚ × ℚ)) :
    ∃ ids, snap_to_nearest_nodes ns pts = .ok ids := by
  unfold snap_to_nearest_nodes
  by_cases hp : pts.isEmpty
  · exact ⟨[], by rw [if_pos hp]⟩
  · cases ns with
    | nil => exact absurd rfl h
    | cons n0 rest => exact ⟨_, by rw [if_neg hp]⟩

theorem accessibility_char (g : Graph) (facilities : List (ℚ × ℚ)) (cutoff : ℚ)
    (hnodes : g.nodes ≠ []) (hw : ∀ e ∈ g.edges, 0 ≤ e.w) :
    ∃ L, compute_accessibility g facilities cutoff = .ok L ∧
      (∀ n d, List.lookup n L = some d ↔
        IsMinReach g.edges (facility_nodes g facilities) n d ∧ d ≤ cutoff) ∧
      (0 ≤ cutoff → ∀ s ∈ facility_nodes g facilities, List.lookup s L = some 0) := by
  obtain ⟨ids, hids⟩ := snap_ok_of_ne_nil hnodes facilities
  have hfn : facility_nodes g facilities = ids.dedup := by
    unfold facility_nodes
    rw [hids]
  rw [hfn]
  by_cases hempty : ids.dedup.isEmpty
  · refine ⟨[], ?_, ?_, ?_⟩
    · simp [compute_accessibility, hids, hempty]
    · intro n d
      constructor
      · intro h
        exact absurd h (by simp)
      · rintro ⟨⟨hre, _⟩, _⟩
        obtain ⟨p, hp⟩ := hre
        obtain ⟨_, ⟨s, hs, _⟩, _⟩ := hp
        rw [List.isEmpty_iff.mp hempty] at hs
        cases hs
    · intro _ s hs
      rw [List.isEmpty_iff.mp hempty] at hs
      cases hs
  · refine ⟨multi_source_dijkstra_path_length g.edges ids.dedup cutoff, ?_, ?_, ?_⟩
    · simp [compute_accessibility, hids, hempty]
    · intro n d
      rw [msd_lookup]
      constructor
      · intro h
        cases hst : shortestTable g.edges ids.dedup n with
        | none => rw [hst, Option.none_bind] at h; cases h
        | some c =>
          rw [hst, Option.some_bind] at h
          by_cases hc : c ≤ cutoff
          · rw [if_pos hc] at h
            obtain rfl : c = d := Option.some.inj h
            exact ⟨(shortestTable_some_iff hw n c).mp hst, hc⟩
          · rw [if_neg hc] at h
            cases h
      · rintro ⟨hmin, hdc⟩
        rw [(shortestTable_some_iff hw n d).mpr hmin, Option.some_bind]
        rw [if_pos hdc]
    · intro hc0 s hs
      rw [msd_lookup]
      have hmin : IsMinReach g.edges ids.dedup s 0 := by
        refine ⟨⟨[s], isWalkTo_single hs⟩, ?_⟩
        intro c hc
        obtain ⟨p, hp⟩ := hc
        exact walkCost_nonneg hw hp.2.2
      rw [(shortestTable_some_iff hw s 0).mpr hmin, Option.some_bind, if_pos hc0]

theorem exampleGraph_eq :
    exampleGraph = ⟨exampleNodes, [⟨0, 1, 12⟩, ⟨1, 0, 12⟩, ⟨1, 2, 12⟩, ⟨2, 1, 12⟩]⟩ := by
  have h : List.lookup "road" default_speeds = none := by rfl
  norm_num [exampleGraph, assign_speeds_and_travel_time, exampleEdgesRaw, speedOf,
    _highway_str, h]

/-- Claim C1 (amended to nonnegative cutoffs): for every weighted graph with
a nonempty node set (snapping needs a node index) and nonnegative travel
times (the spec's own edge invariant), and every cutoff at least 0,
`compute_accessibility` returns the mapping whose value at each node is the
minimum accumulated `travel_time_sec` over walks from any snapped facility
node, whose keys are exactly the nodes whose minimum does not exceed the
cutoff, and which maps every facility node to 0; on the 3-node line graph
the result is {A:0, B:12, C:24} at cutoff 3600 and {A:0} alone at cutoff
10. -/
theorem claim_C1 :
    (∀ (g : Graph) (facilities : List (ℚ × ℚ)) (cutoff : ℚ),
      g.nodes ≠ [] → (∀ e ∈ g.edges, 0 ≤ e.w) → 0 ≤ cutoff →
      ∃ L, compute_accessibility g facilities cutoff = .ok L ∧
        (∀ n d, List.lookup n L = some d ↔
          IsMinReach g.edges (facility_nodes g facilities) n d ∧ d ≤ cutoff) ∧
        (∀ s ∈ facility_nodes g facilities, List.lookup s L = some 0)) ∧
    compute_accessibility exampleGraph exampleFacility 3600 =
      .ok [(0, 0), (2, 24), (1, 12)] ∧
    compute_accessibility exampleGraph exampleFacility 10 = .ok [(0, 0)] := by
  refine ⟨?_, ?_, ?_⟩
  · intro g facilities cutoff hnodes hw hc
    obtain ⟨L, hL, hiff, hz⟩ := accessibility_char g facilities cutoff hnodes hw
    exact ⟨L, hL, hiff, hz hc⟩
  · rw [exampleGraph_eq]
    norm_num [compute_accessibility, snap_to_nearest_nodes, exampleNodes,
      exampleFacility, nearest1, sqDist, multi_source_dijkstra_path_length,
      verts, shortestTable, bfIter, relaxRound, stepFn, updMin, initTable, ewt, pweights,
      minList, List.dedup_cons_of_mem, List.dedup_cons_of_not_mem, List.filterMap_cons,
      min_def]
  · rw [exampleGraph_eq]
    norm_num [compute_accessibility, snap_to_nearest_nodes, exampleNodes,
      exampleFacility, nearest1, sqDist, multi_source_dijkstra_path_length,
      verts, shortestTable, bfIter, relaxRound, stepFn, updMin, initTable, ewt, pweights,
      minList, List.dedup_cons_of_mem, List.dedup_cons_of_not_mem, List.filterMap_cons,
      min_def]

theorem claim_C1_witness :
    ∃ L, compute_accessibility exampleGraph exampleFacility 3600 = .ok L ∧
      (∀ n d, List.lookup n L = some d ↔
        IsMinReach exampleGraph.edges (facility_nodes exampleGraph exampleFacility) n d ∧
          d ≤ 3600) ∧
      (∀ s ∈ facility_nodes exampleGraph exampleFacility, List.lookup s L = some 0) :=
  claim_C1.1 exampleGraph exampleFacility 3600
    (by rw [exampleGraph_eq]; simp [exampleNodes])
    (by rw [exampleGraph_eq]; norm_num)
    (by norm_num)

/-- Claim C1 fails as universally stated: at a negative cutoff the returned
mapping is empty and so omits the snapped facility node 0 (which the claim
requires to be present with value 0), and a graph with an empty node set
makes the call fail instead of returning a mapping. -/
theorem claim_C1_cex :
    compute_accessibility exampleGraph exampleFacility (-1) = .ok [] ∧
    facility_nodes exampleGraph exampleFacility = [0] ∧
    compute_accessibility ⟨[], exampleGraph.edges⟩ exampleFacility 3600 =
      .error .emptyNodeIndex := by
  refine ⟨?_, ?_, ?_⟩
  · rw [exampleGraph_eq]
    norm_num [compute_accessibility, snap_to_nearest_nodes, exampleNodes,
      exampleFacility, nearest1, sqDist, multi_source_dijkstra_path_length,
      verts, shortestTable, bfIter, relaxRound, stepFn, updMin, initTable, ewt, pweights,
      minList, List.dedup_cons_of_mem, List.dedup_cons_of_not_mem, List.filterMap_cons,
      min_def]
  · norm_num [facility_nodes, snap_to_nearest_nodes, exampleGraph, exampleNodes,
      exampleFacility, nearest1, sqDist, List.dedup_cons_of_mem, List.dedup_cons_of_not_mem]
  · norm_num [compute_accessibility, snap_to_nearest_nodes, exampleFacility]

end Assess
